import Mathlib

/-!
# Verification of the TurboWarp unpackager (`src/unpackager.js`)

Shallow embedding of the unpackager pipeline.  Strings are modelled as
`List Char`; byte sequences as `List Nat` (each element `< 256` in practice).
All inputs handled by the real program are ASCII, where JavaScript's
UTF-16 string indexing, `TextEncoder` UTF-8 bytes and Unicode code points
coincide, so character codes are taken as `Char.toNat`.

External collaborators (the zip container codec `JSZip`, blob/text reading
and JSON parsing) are out of the program's scope and are modelled as
explicit capability functions bundled in an `Ext` record, exactly at the
boundary the program uses them.
-/

namespace Unpackager

/-- Project type tags produced by the pipeline. -/
inductive ProjType where
  | sb
  | sb2
  | sb3
deriving DecidableEq, Repr

/-- Terminal result of `unpackage`: a tag plus the binary payload. -/
structure UnpackResult where
  type : ProjType
  data : List Nat
deriving DecidableEq, Repr

/-- Failure modes of the pipeline.  The first five are the labeled error
kinds of the error-handling design (`throw new Error(...)` sites and the
documented external failures); the remaining constructors model unlabeled
runtime exceptions (a `TypeError` from accessing a member of `null`, an
`InvalidCharacterError` thrown by `atob`, and exceptions escaping from the
external JSON parser). -/
inductive UErr where
  | ambiguousProjectType
  | dataURINotBase64
  | zipMissingProject
  | noProjectFound
  | blobReadFailure
  | nullProjectJSONAccess
  | invalidBase64
  | externalFailure
deriving DecidableEq, Repr

/-- One entry of a zip archive: slash-separated path, content bytes and a
last-modified timestamp (milliseconds). -/
structure ZipEntry where
  name : List Char
  data : List Nat
  date : Nat
deriving DecidableEq, Repr

/-- An archive is its entry list, in insertion/enumeration order
(JavaScript object key order of `zip.files`). -/
abbrev Zip := List ZipEntry

/-! ## Base-85 decoder suite (`decodeBase85WithLengthHeader` and friends) -/

/-- Digit value of v1 (`decode_1`'s `getValue`): code `0x7e` acts as
`0x5c`, all else is `code - 0x29`.  `Int`-valued because JavaScript's
subtraction of the offset can go negative on out-of-alphabet codes. -/
def getValue_1 (code : Nat) : Int :=
  if code = 0x7e then (0x5c : Int) - 0x29 else (code : Int) - 0x29

/-- Digit value of v2/v3 (`decode_2`/`decode_3`'s `getValue`): `0x28` acts
as `0x3c`, `0x29` acts as `0x3e`, all else is `code - 0x2a`. -/
def getValue_2 (code : Nat) : Int :=
  if code = 0x28 then (0x3c : Int) - 0x2a
  else if code = 0x29 then (0x3e : Int) - 0x2a
  else (code : Int) - 0x2a

/-- `getBase85DecodeValue` of v4 is the same mapping as v2/v3. -/
def getBase85DecodeValue (code : Nat) : Int := getValue_2 code

/-- `toMultipleOfFour` from the source: round up to a multiple of 4. -/
def toMultipleOfFour (n : Nat) : Nat :=
  if n % 4 = 0 then n else n + (4 - n % 4)

/-- JavaScript unary `+` on a nonempty all-decimal-digits string.  (The
program only evaluates the header length in contexts where the theorems
below hypothesise a digit string, matching the `NaN` caveats of the
source’s comments.) -/
def strToNatAllDigits (s : List Char) : Nat :=
  s.foldl (fun a c => a * 10 + (c.toNat - 48)) 0

/-- `DataView.setUint32(j, v, true)`: store `v` modulo `2^32` at byte
offsets `j..j+3`, little-endian.  (`List.set` out of bounds is a no-op;
JavaScript would throw a `RangeError` there — every theorem below stays
within bounds.) -/
def u32SetLE (buf : List Nat) (j : Nat) (v : Int) : List Nat :=
  let w := (v % (2 : Int) ^ 32).toNat
  ((((buf.set j (w % 256)).set (j + 1) (w / 256 % 256)).set
      (j + 2) (w / 65536 % 256)).set (j + 3) (w / 16777216 % 256))

/-- The 32-bit word assembled from the 5-character chunk starting at
string index `i` (digit 0 at `i`, digit 4 at `i+4`), as in each decoder's
`setUint32` argument. -/
def chunkValue (g : Nat → Int) (codes : List Nat) (i : Nat) : Int :=
  g (codes.getD (i + 4) 0) * 85 * 85 * 85 * 85 +
  g (codes.getD (i + 3) 0) * 85 * 85 * 85 +
  g (codes.getD (i + 2) 0) * 85 * 85 +
  g (codes.getD (i + 1) 0) * 85 +
  g (codes.getD i 0)

/-- The shared decode loop
`for (let i = start, j = 0; i < str.length; i += 5, j += 4) view.setUint32(j, ..., true)`. -/
def decodeLoop (g : Nat → Int) (codes : List Nat) (i j : Nat) (buf : List Nat) : List Nat :=
  if i < codes.length then
    decodeLoop g codes (i + 5) (j + 4) (u32SetLE buf j (chunkValue g codes i))
  else
    buf
termination_by codes.length - i

/-- `str.substring(0, str.indexOf(','))`: the header text before the first
comma (empty when there is no comma, as `substring(0, -1)` clamps). -/
def headerOf (s : List Char) : List Char :=
  if ',' ∈ s then s.take (s.findIdx (fun c => c = ',')) else []

/-- `str.indexOf(',') + 1`: index of the first payload character
(`-1 + 1 = 0` when there is no comma). -/
def payloadStart (s : List Char) : Nat :=
  if ',' ∈ s then s.findIdx (fun c => c = ',') + 1 else 0

/-- `decode_1` — the initial base-85 version. -/
def decode_1 (s : List Char) : List Nat :=
  let byteLength := strToNatAllDigits (headerOf s)
  let buf := List.replicate (toMultipleOfFour byteLength) 0
  (decodeLoop getValue_1 (s.map Char.toNat) (payloadStart s) 0 buf).take byteLength

/-- `decode_2` — the HTML-safe second version. -/
def decode_2 (s : List Char) : List Nat :=
  let byteLength := strToNatAllDigits (headerOf s)
  let buf := List.replicate (toMultipleOfFour byteLength) 0
  (decodeLoop getValue_2 (s.map Char.toNat) (payloadStart s) 0 buf).take byteLength

/-- `decode_3` — third version; each header character's code is
decremented by 49 (`String.fromCharCode(c.charCodeAt(0) - 49)`) before the
header is read as a decimal string. -/
def decode_3 (s : List Char) : List Nat :=
  let byteLength := strToNatAllDigits ((headerOf s).map (fun c => Char.ofNat (c.toNat - 49)))
  let buf := List.replicate (toMultipleOfFour byteLength) 0
  (decodeLoop getValue_2 (s.map Char.toNat) (payloadStart s) 0 buf).take byteLength

/-- Header-bearing dispatch: `/^\d+$/.test(header)` chooses v1/v2 (split
on `str.includes('\\')`), otherwise v3. -/
def decodeBase85WithLengthHeader (s : List Char) : List Nat :=
  let header := headerOf s
  if header ≠ [] ∧ header.all Char.isDigit then
    if '\\' ∈ s then decode_2 s else decode_1 s
  else decode_3 s

/-- `decodeBase85WithoutLengthHeader` — v4: caller supplies the byte
length; buffer is `Math.ceil(length / 4) * 4` bytes. -/
def decodeBase85WithoutLengthHeader (s : List Char) (length : Nat) : List Nat :=
  let buf := List.replicate ((length + 3) / 4 * 4) 0
  (decodeLoop getBase85DecodeValue (s.map Char.toNat) 0 0 buf).take length

/-! ### Specification-side chunk semantics (for claim C6)

`chunkWords` states the spec's words: the payload is consumed in
5-character chunks, the `k`-th chunk yielding output bytes `4k..4k+3` as
the little-endian encoding of `b4*85^4 + b3*85^3 + b2*85^2 + b1*85 + b0`. -/

/-- Little-endian bytes of a value taken modulo `2^32`. -/
def u32LEBytes (v : Int) : List Nat :=
  let w := (v % (2 : Int) ^ 32).toNat
  [w % 256, w / 256 % 256, w / 65536 % 256, w / 16777216 % 256]

/-- Chunk-at-a-time restatement of the decode loop (spec's words). -/
def chunkWords (g : Nat → Int) : List Nat → List Nat
  | c0 :: c1 :: c2 :: c3 :: c4 :: rest =>
      u32LEBytes (g c4 * 85 * 85 * 85 * 85 + g c3 * 85 * 85 * 85 +
        g c2 * 85 * 85 + g c1 * 85 + g c0) ++ chunkWords g rest
  | _ => []

/-! ## Base64 / data-URI decoding (`decodeBase64`, `decodeDataURI`) -/

/-- The data-URI separator `";base64,"` as a character list. -/
def sepB64chars : List Char := [';', 'b', 'a', 's', 'e', '6', '4', ',']

/-- `uri.split(';base64,')`: split on the literal 8-character separator,
scanning left to right, non-overlapping. -/
def splitB64 (acc : List Char) (s : List Char) : List (List Char) :=
  match s with
  | ';' :: 'b' :: 'a' :: 's' :: 'e' :: '6' :: '4' :: ',' :: rest => acc :: splitB64 [] rest
  | c :: rest => splitB64 (acc ++ [c]) rest
  | [] => [acc]

/-- ASCII whitespace removed by `atob` (forgiving base64). -/
def isB64Space (c : Char) : Bool :=
  c.toNat == 9 || c.toNat == 10 || c.toNat == 12 || c.toNat == 13 || c.toNat == 32

/-- Standard base64 alphabet digit value. -/
def b64CharVal (c : Char) : Option Nat :=
  if 65 ≤ c.toNat ∧ c.toNat ≤ 90 then some (c.toNat - 65)
  else if 97 ≤ c.toNat ∧ c.toNat ≤ 122 then some (c.toNat - 71)
  else if 48 ≤ c.toNat ∧ c.toNat ≤ 57 then some (c.toNat + 4)
  else if c = '+' then some 62
  else if c = '/' then some 63
  else none

/-- Strip up to two trailing `=` padding characters when the length is a
multiple of 4 (forgiving-base64 step). -/
def b64StripPad (t : List Char) : List Char :=
  if t.length % 4 = 0 then
    if t.reverse.take 2 = ['=', '='] then t.dropLast.dropLast
    else if t.reverse.take 1 = ['='] then t.dropLast
    else t
  else t

/-- Reassemble bytes from 6-bit digit values; a trailing group of 2 or 3
digits yields 1 or 2 bytes. -/
def b64Quantums : List Nat → List Nat
  | a :: b :: c :: d :: rest =>
      (a * 4 + b / 16) :: ((b % 16) * 16 + c / 4) :: ((c % 4) * 64 + d) :: b64Quantums rest
  | [a, b] => [a * 4 + b / 16]
  | [a, b, c] => [a * 4 + b / 16, (b % 16) * 16 + c / 4]
  | _ => []

/-- `atob` (WHATWG forgiving base64): remove ASCII whitespace, strip
padding, fail (`none`) on a remainder-1 length or any out-of-alphabet
character, else decode. -/
def decodeBase64 (s : List Char) : Option (List Nat) :=
  let t := b64StripPad (s.filter (fun c => !isB64Space c))
  if t.length % 4 = 1 then none
  else if t.all (fun c => (b64CharVal c).isSome) then
    some (b64Quantums (t.map (fun c => (b64CharVal c).getD 0)))
  else none

/-- `decodeDataURI`: split on `';base64,'`; fewer than two parts is the
labeled "Data URI is not base64" error; otherwise `atob(parts[1])`, whose
failure surfaces as the (unlabeled) `invalidBase64` exception. -/
def decodeDataURI (uri : List Char) : Except UErr (List Nat) :=
  let parts := splitB64 [] uri
  if parts.length < 2 then .error .dataURINotBase64
  else
    match decodeBase64 (parts.getD 1 []) with
    | some r => .ok r
    | none => .error .invalidBase64

/-! ## Zip helpers -/

def pjName : List Char := "project.json".data

/-- `findFileInZip`: exact name first, then the first entry (in
enumeration order) whose path ends with `'/' + path`. -/
def findFileInZip (z : Zip) (path : List Char) : Option ZipEntry :=
  match z.find? (fun e => e.name == path) with
  | some f => some f
  | none => z.find? (fun e => ('/' :: path).isSuffixOf e.name)

/-- `identifyProjectJSONType`: keyed on the top-level JSON keys — a
`targets` key means sb3, else an `objName` key means sb2, else the labeled
"Can not determine project.json type" error. -/
def identifyProjectJSONType (keys : List (List Char)) : Except UErr ProjType :=
  if keys.contains "targets".data then .ok .sb3
  else if keys.contains "objName".data then .ok .sb2
  else .error .ambiguousProjectType

/-- External collaborators at the boundary the spec declares out of scope:
the zip container codec (`JSZip.loadAsync` / `generateAsync`), blob→text
reading (`FileReader`), and JSON parsing.  `parseZip` returning `none`
models "the bytes are not a valid zip archive". -/
structure Ext where
  parseZip : List Nat → Option Zip
  readText : List Nat → Option (List Char)
  parseJSONKeys : List Nat → Option (List (List Char))
  generate : Zip → List Nat
  parseInitOptionsAssets : List Char → Option (List (List Char × List Char))
  parseStrMap : List Char → Option (List (List Char × List Char))

/-- `unpackageBinaryBlob`: a valid zip must contain a `project.json`
(the source reads `projectJSON.async('text')` without a null check — the
`none` lookup result is the unlabeled `TypeError`, `nullProjectJSONAccess`);
bytes that are not a valid zip are returned unchanged, tagged `sb`. -/
def unpackageBinaryBlob (ext : Ext) (data : List Nat) : Except UErr UnpackResult :=
  match ext.parseZip data with
  | some projectZip =>
    match findFileInZip projectZip pjName with
    | none => .error .nullProjectJSONAccess
    | some projectJSON =>
      match ext.parseJSONKeys projectJSON.data with
      | none => .error .externalFailure
      | some keys => (identifyProjectJSONType keys).map (fun type => ⟨type, data⟩)
  | none => .ok ⟨.sb, data⟩

/-- The fixed timestamp written onto every entry: date of the first
unpackager commit, 1662869887000 ms. -/
def unpackagerDate : Nat := 1662869887000

/-- `zipToArrayBuffer`: overwrite every entry's date with the fixed
constant, then serialize (deflate) through the external codec. -/
def zipToArrayBuffer (ext : Ext) (z : Zip) : List Nat :=
  ext.generate (z.map (fun e => { e with date := unpackagerDate }))

/-! ## Asset-name classification (the extractor's filtering loop) -/

/-- `[a-f0-9]` under the `i` flag: hex digit of either case. -/
def isHexCI (c : Char) : Bool :=
  (97 ≤ c.toNat && c.toNat ≤ 102) || (65 ≤ c.toNat && c.toNat ≤ 70) || c.isDigit

/-- `[a-z0-9]` under the `i` flag: Latin letter of either case or digit. -/
def isAlnumCI (c : Char) : Bool := c.isAlpha || c.isDigit

/-- `/^[a-f0-9]{32}\.[a-z0-9]{3}$/i`: 32 hex characters (either case), a
dot, then exactly 3 alphanumeric characters. -/
def isSb3AssetName (s : List Char) : Bool :=
  s.length == 36 && (s.take 32).all isHexCI && (s.getD 32 ' ' == '.') &&
    (s.drop 33).all isAlnumCI

/-- `/^[0-9]+\.[a-z0-9]{3}$/i`: a nonempty run of decimal digits, a dot,
then exactly 3 alphanumeric characters (a dot is not a digit, so the
greedy digit run is the maximal one and no backtracking arises). -/
def isSb2AssetName (s : List Char) : Bool :=
  let d := s.takeWhile Char.isDigit
  !d.isEmpty && s.getD d.length ' ' == '.' &&
    (s.drop (d.length + 1)).length == 3 && (s.drop (d.length + 1)).all isAlnumCI

/-- One step of the extractor's filtering loop: accumulator is
`(sb3Assets, sb2Assets, kept paths)`; `project.json` and asset-shaped
names are kept, everything else is removed. -/
def assetScanStep (acc : Nat × Nat × List (List Char)) (path : List Char) :
    Nat × Nat × List (List Char) :=
  if path = pjName then (acc.1, acc.2.1, acc.2.2 ++ [path])
  else if isSb3AssetName path then (acc.1 + 1, acc.2.1, acc.2.2 ++ [path])
  else if isSb2AssetName path then (acc.1, acc.2.1 + 1, acc.2.2 ++ [path])
  else acc

/-- The extractor's loop over all enumerated entry paths. -/
def assetScan (paths : List (List Char)) : Nat × Nat × List (List Char) :=
  paths.foldl assetScanStep (0, 0, [])

/-! ## The HTML artifact parser's regular expressions

The six extraction patterns contain only literal runs and greedy character
classes (`+` / `*`), never alternation or nested groups, so they are
modelled by a token matcher with full backtracking and greedy-first
ordering — exactly the JavaScript regex semantics for these patterns.  A
piece marked `true` is a capture group. -/

inductive RTok where
  | lit (l : List Char)
  | cls (p : Char → Bool) (one : Bool)

abbrev RPattern := List (Bool × List RTok)

/-- Candidate splits for a greedy class token, longest first; `one` means
one-or-more (`+`), otherwise zero-or-more (`*`). -/
def clsTries (p : Char → Bool) (one : Bool) (s : List Char) : List (List Char × List Char) :=
  let maxRun := (s.takeWhile p).length
  (List.range (maxRun + 1)).filterMap (fun k =>
    let t := maxRun - k
    if one && t == 0 then none else some (s.take t, s.drop t))

/-- All ways a token list can match a prefix of `s`, in backtracking
priority order; each result is (consumed text, rest). -/
def matchToks : List RTok → List Char → List (List Char × List Char)
  | [], s => [([], s)]
  | RTok.lit l :: ts, s =>
      if l.isPrefixOf s then
        (matchToks ts (s.drop l.length)).map (fun cr => (l ++ cr.1, cr.2))
      else []
  | RTok.cls p one :: ts, s =>
      (clsTries p one s).flatMap (fun tr =>
        (matchToks ts tr.2).map (fun cr => (tr.1 ++ cr.1, cr.2)))

/-- All ways a pattern can match a prefix of `s`; each result is
(captured groups, rest). -/
def matchPieces : RPattern → List Char → List (List (List Char) × List Char)
  | [], s => [([], s)]
  | (cap, toks) :: ps, s =>
      (matchToks toks s).flatMap (fun tr =>
        (matchPieces ps tr.2).map (fun cr =>
          ((if cap then [tr.1] else []) ++ cr.1, cr.2)))

/-- `regex.exec`: leftmost match, greedy-first; returns the captures and
the text after the match. -/
def regexSearch (pat : RPattern) (s : List Char) : Option (List (List Char) × List Char) :=
  match (matchPieces pat s).head? with
  | some r => some r
  | none =>
    match s with
    | [] => none
    | _ :: rest => regexSearch pat rest

/-- Repeated `exec` with the `g` flag (`matchAll` in the source), resuming
after each match.  Fuel `|s| + 1` suffices: every pattern below contains a
mandatory nonempty literal, so each match consumes at least one character. -/
def matchAllAux (pat : RPattern) : Nat → List Char → List (List (List Char))
  | 0, _ => []
  | fuel + 1, s =>
    match regexSearch pat s with
    | none => []
    | some (caps, rest) => caps :: matchAllAux pat fuel rest

def matchAllModel (pat : RPattern) (s : List Char) : List (List (List Char)) :=
  matchAllAux pat (s.length + 1) s

/-- `.` without the `s` flag: anything but a line terminator. -/
def dotClass (c : Char) : Bool :=
  !(c == '\n' || c == '\r' || c.toNat == 0x2028 || c.toNat == 0x2029)

/-- `[a-zA-Z0-9+/=\-:;,]`, the data-URI character class. -/
def dataURIClass (c : Char) : Bool :=
  c.isAlphanum || c == '+' || c == '/' || c == '=' || c == '-' || c == ':' ||
    c == ';' || c == ','

/-- `/<script data="([^"]+)">decodeChunk\((\d+)\)<\/script>/g` -/
def pat1 : RPattern :=
  [(false, [RTok.lit "<script data=\"".data]),
   (true, [RTok.cls (fun c => c != '"') true]),
   (false, [RTok.lit "\">decodeChunk(".data]),
   (true, [RTok.cls Char.isDigit true]),
   (false, [RTok.lit ")</script>".data])]

/-- `/<script type="p4-project">([^<]+)<\/script>/g` -/
def pat2 : RPattern :=
  [(false, [RTok.lit "<script type=\"p4-project\">".data]),
   (true, [RTok.cls (fun c => c != '<') true]),
   (false, [RTok.lit "</script>".data])]

/-- `/const result = base85decode\("(.+)"\);/` -/
def pat3a : RPattern :=
  [(false, [RTok.lit "const result = base85decode(\"".data]),
   (true, [RTok.cls dotClass true]),
   (false, [RTok.lit "\");".data])]

/-- `/<script id="p4-encoded-project-data" type="p4-encoded-project-data">([^<]+)<\/script>/` -/
def pat3b : RPattern :=
  [(false, [RTok.lit "<script id=\"p4-encoded-project-data\" type=\"p4-encoded-project-data\">".data]),
   (true, [RTok.cls (fun c => c != '<') true]),
   (false, [RTok.lit "</script>".data])]

/-- `/const getProjectData = \(\) => fetch\("([a-zA-Z0-9+\/=\-:;,]+)"\)/` -/
def pat4a : RPattern :=
  [(false, [RTok.lit "const getProjectData = () => fetch(\"".data]),
   (true, [RTok.cls dataURIClass true]),
   (false, [RTok.lit "\")".data])]

/-- `/var project = '([a-zA-Z0-9+\/=\-:;,]+)';/` -/
def pat4b : RPattern :=
  [(false, [RTok.lit ("var project = ".data ++ ['\x27'])]),
   (true, [RTok.cls dataURIClass true]),
   (false, [RTok.lit ['\x27', ';']])]

/-- `/window\.__PACKAGER__ = {\n    projectData: "([a-zA-Z0-9+\/=\-:;,]+)"/` -/
def pat4c : RPattern :=
  [(false, [RTok.lit ("window.__PACKAGER__ = ".data ++ ['\x7b'] ++ "\n    projectData: \"".data)]),
   (true, [RTok.cls dataURIClass true]),
   (false, [RTok.lit "\"".data])]

/-- `/<script>\nconst GENERATED = \d+\nconst initOptions = ({[\s\S]+})\ninit\(initOptions\)\n<\/script>/m` -/
def pat5 : RPattern :=
  [(false, [RTok.lit "<script>\nconst GENERATED = ".data, RTok.cls Char.isDigit true,
            RTok.lit "\nconst initOptions = ".data]),
   (true, [RTok.lit ['\x7b'], RTok.cls (fun _ => true) true, RTok.lit ['\x7d']]),
   (false, [RTok.lit "\ninit(initOptions)\n</script>".data])]

/-- `/var TYPE = 'json',\nPROJECT_JSON = "([^"]*)",\nASSETS = ({[^}]*}),/m` -/
def pat6 : RPattern :=
  [(false, [RTok.lit ("var TYPE = ".data ++ '\x27' :: "json".data ++ '\x27' :: ",\nPROJECT_JSON = \"".data)]),
   (true, [RTok.cls (fun c => c != '"') false]),
   (false, [RTok.lit "\",\nASSETS = ".data]),
   (true, [RTok.lit ['\x7b'], RTok.cls (fun c => c.toNat != 0x7d) false, RTok.lit ['\x7d']]),
   (false, [RTok.lit [',']])]

/-! ## The dispatcher (`unpackage`) -/

def capGet (caps : List (List Char)) (i : Nat) : List Char := caps.getD i []

/-- `Object.keys`-order lookup in a decoded JSON string map. -/
def lookupStr (m : List (List Char × List Char)) (k : List Char) : Option (List Char) :=
  (m.find? (fun kv => kv.1 == k)).map (fun kv => kv.2)

/-- Decode every asset data URI into a fresh zip entry, in order,
propagating the first decoding error (as the source's loop of
`newZip.file(name, decodeDataURI(uri))` would throw).  When `rename` is
set, the key `project` becomes `project.json`. -/
def decodeAssetsToZip (rename : Bool) : List (List Char × List Char) → Except UErr Zip
  | [] => .ok []
  | (name, uri) :: rest => do
      let d ← decodeDataURI uri
      let z ← decodeAssetsToZip rename rest
      .ok (⟨if rename && name == "project".data then pjName else name, d, 0⟩ :: z)

/-- The HTML artifact parser: the ordered ladder of the six extraction
patterns over the document text. -/
def unpackageText (ext : Ext) (text : List Char) : Except UErr UnpackResult :=
  let m1 := matchAllModel pat1 text
  if m1 ≠ [] then
    let base85 := (m1.map (fun caps => capGet caps 0)).flatten
    let len := (m1.map (fun caps => strToNatAllDigits (capGet caps 1))).foldl (· + ·) 0
    unpackageBinaryBlob ext (decodeBase85WithoutLengthHeader base85 len)
  else
    let m2 := matchAllModel pat2 text
    if m2 ≠ [] then
      unpackageBinaryBlob ext
        (decodeBase85WithLengthHeader ((m2.map (fun caps => capGet caps 0)).flatten))
    else
      match (regexSearch pat3a text) <|> (regexSearch pat3b text) with
      | some r => unpackageBinaryBlob ext (decodeBase85WithLengthHeader (capGet r.1 0))
      | none =>
        match (regexSearch pat4a text) <|> (regexSearch pat4b text) <|> (regexSearch pat4c text) with
        | some r =>
          match decodeDataURI (capGet r.1 0) with
          | .ok bytes => unpackageBinaryBlob ext bytes
          | .error e => .error e
        | none =>
          match regexSearch pat5 text with
          | some r =>
            match ext.parseInitOptionsAssets (capGet r.1 0) with
            | none => .error .externalFailure
            | some assets =>
              match lookupStr assets "file".data with
              | some fileURI =>
                if fileURI ≠ [] then
                  match decodeDataURI fileURI with
                  | .ok d => .ok ⟨.sb, d⟩
                  | .error e => .error e
                else
                  match decodeAssetsToZip true assets with
                  | .ok newZip => .ok ⟨.sb3, zipToArrayBuffer ext newZip⟩
                  | .error e => .error e
              | none =>
                match decodeAssetsToZip true assets with
                | .ok newZip => .ok ⟨.sb3, zipToArrayBuffer ext newZip⟩
                | .error e => .error e
          | none =>
            match regexSearch pat6 text with
            | some r =>
              match decodeDataURI (capGet r.1 0) with
              | .error e => .error e
              | .ok projectJSON =>
                match ext.parseStrMap (capGet r.1 1) with
                | none => .error .externalFailure
                | some assetsJSON =>
                  match decodeAssetsToZip false assetsJSON with
                  | .ok assetEntries =>
                    .ok ⟨.sb3, zipToArrayBuffer ext (⟨pjName, projectJSON, 0⟩ :: assetEntries)⟩
                  | .error e => .error e
            | none => .error .noProjectFound

/-- The top-level entry point `unpackage`.  The zip branch models the
extractor at the archive root (`getContainingFolder`/`folder('')` returns
the archive itself when `project.json` is a root entry; JSZip's `folder`
shares the full `files` map, so the filtering loop enumerates absolute
entry paths in every case); in-loop `remove` of every non-matching path is
the filter of the matching ones. -/
def unpackage (ext : Ext) (blob : List Nat) : Except UErr UnpackResult :=
  match ext.parseZip blob with
  | some packagedZip =>
    match findFileInZip packagedZip pjName with
    | some _ =>
      let scan := assetScan (packagedZip.map (fun e => e.name))
      let type := if 0 < scan.2.1 ∧ scan.1 = 0 then ProjType.sb2 else ProjType.sb3
      let filtered := packagedZip.filter (fun e =>
        e.name == pjName || isSb3AssetName e.name || isSb2AssetName e.name)
      .ok ⟨type, zipToArrayBuffer ext filtered⟩
    | none =>
      match (findFileInZip packagedZip "project.zip".data) <|>
            (findFileInZip packagedZip "project".data) with
      | some projectBinary => unpackageBinaryBlob ext projectBinary.data
      | none => .error .zipMissingProject
  | none =>
    match ext.readText blob with
    | none => .error .blobReadFailure
    | some text => unpackageText ext text

/-! ## Further definitions used by the theorems -/

instance {ε α : Type} [DecidableEq ε] [DecidableEq α] : DecidableEq (Except ε α) := fun x y =>
  match x, y with
  | .ok a, .ok b =>
      if h : a = b then .isTrue (by rw [h]) else .isFalse (by intro he; cases he; exact h rfl)
  | .error a, .error b =>
      if h : a = b then .isTrue (by rw [h]) else .isFalse (by intro he; cases he; exact h rfl)
  | .ok _, .error _ => .isFalse (by intro h; cases h)
  | .error _, .ok _ => .isFalse (by intro h; cases h)

/-- Writing a run of values at consecutive indices (reassociation of the
four `List.set`s of `u32SetLE`). -/
def setRun (buf : List Nat) (j : Nat) : List Nat → List Nat
  | [] => buf
  | v :: vs => setRun (buf.set j v) (j + 1) vs

/-- Names the filtering loop increments `sb3Assets` for: not
`project.json` and sb3-shaped. -/
def sb3CountedP (p : List Char) : Bool := !(p == pjName) && isSb3AssetName p

/-- Names the filtering loop increments `sb2Assets` for: not
`project.json`, not sb3-shaped, sb2-shaped. -/
def sb2CountedP (p : List Char) : Bool :=
  !(p == pjName) && !isSb3AssetName p && isSb2AssetName p

/-- A concrete external environment whose zip parser rejects everything
(every input is "not a valid zip"). -/
def extNoZip : Ext where
  parseZip := fun _ => none
  readText := fun bs => some (bs.map Char.ofNat)
  parseJSONKeys := fun _ => none
  generate := fun z => (z.map (fun e => e.data)).flatten
  parseInitOptionsAssets := fun _ => none
  parseStrMap := fun _ => none

/-- A concrete external environment whose zip parser always yields the
fixed archive `z`. -/
def extFix (z : Zip) : Ext where
  parseZip := fun _ => some z
  readText := fun _ => none
  parseJSONKeys := fun _ => none
  generate := fun zz => (zz.map (fun e => e.data)).flatten
  parseInitOptionsAssets := fun _ => none
  parseStrMap := fun _ => none

/-- A concrete external environment whose serializer exposes exactly the
entry timestamps (to exhibit timestamp normalization). -/
def extDates : Ext where
  parseZip := fun _ => none
  readText := fun _ => none
  parseJSONKeys := fun _ => none
  generate := fun z => z.map (fun e => e.date)
  parseInitOptionsAssets := fun _ => none
  parseStrMap := fun _ => none

/-! ## Infrastructure lemmas -/

theorem u32SetLE_eq_setRun (buf : List Nat) (j : Nat) (v : Int) :
    u32SetLE buf j v = setRun buf j (u32LEBytes v) := rfl

theorem setRun_length (vs : List Nat) : ∀ (buf : List Nat) (j : Nat),
    (setRun buf j vs).length = buf.length := by
  induction vs with
  | nil => intro buf j; rfl
  | cons v vs ih => intro buf j; rw [setRun, ih, List.length_set]

theorem u32SetLE_length (buf : List Nat) (j : Nat) (v : Int) :
    (u32SetLE buf j v).length = buf.length := by
  rw [u32SetLE_eq_setRun, setRun_length]

theorem take_succ_set (v : Nat) : ∀ (buf : List Nat) (j : Nat), j < buf.length →
    (buf.set j v).take (j + 1) = buf.take j ++ [v] := by
  intro buf
  induction buf with
  | nil => intro j h; simp at h
  | cons x xs ih =>
    intro j h
    cases j with
    | zero => simp
    | succ j =>
      rw [List.set_cons_succ, List.take_succ_cons, List.take_succ_cons,
        ih j (by simpa using h)]
      rfl

theorem take_setRun (vs : List Nat) : ∀ (buf : List Nat) (j : Nat),
    j + vs.length ≤ buf.length →
    (setRun buf j vs).take (j + vs.length) = buf.take j ++ vs := by
  induction vs with
  | nil => intro buf j h; simp [setRun]
  | cons v vs ih =>
    intro buf j h
    rw [setRun]
    have h1 : (j + 1) + vs.length ≤ (buf.set j v).length := by
      rw [List.length_set]; simp at h ⊢; omega
    have h2 : j + (v :: vs).length = (j + 1) + vs.length := by simp; omega
    rw [h2, ih (buf.set j v) (j + 1) h1,
      take_succ_set v buf j (by simp at h; omega)]
    simp

theorem chunkWords_nil (g : Nat → Int) : chunkWords g [] = [] := rfl

theorem chunkWords_length (g : Nat → Int) : ∀ (k : Nat) (l : List Nat),
    l.length = 5 * k → (chunkWords g l).length = 4 * k := by
  intro k
  induction k with
  | zero =>
    intro l h
    have : l = [] := List.eq_nil_of_length_eq_zero (by omega)
    subst this; rfl
  | succ k ih =>
    intro l h
    match l, h with
    | c0 :: c1 :: c2 :: c3 :: c4 :: rest, h =>
      rw [chunkWords, List.length_append]
      have : rest.length = 5 * k := by simp at h; omega
      rw [ih rest this]
      simp [u32LEBytes]
      omega

theorem drop_five (codes : List Nat) (i : Nat) (h : i + 5 ≤ codes.length) :
    codes.drop i = codes.getD i 0 :: codes.getD (i + 1) 0 :: codes.getD (i + 2) 0 ::
      codes.getD (i + 3) 0 :: codes.getD (i + 4) 0 :: codes.drop (i + 5) := by
  rw [List.drop_eq_getElem_cons (by omega), List.drop_eq_getElem_cons (l := codes) (by omega),
    List.drop_eq_getElem_cons (l := codes) (by omega), List.drop_eq_getElem_cons (l := codes) (by omega),
    List.drop_eq_getElem_cons (l := codes) (by omega)]
  rw [List.getD_eq_getElem codes 0 (by omega), List.getD_eq_getElem codes 0 (by omega),
    List.getD_eq_getElem codes 0 (by omega), List.getD_eq_getElem codes 0 (by omega),
    List.getD_eq_getElem codes 0 (by omega)]

/-- The decode loop writes chunk `k`'s word at byte offsets `4k..4k+3`:
with an exactly-sized buffer it produces precisely the concatenation of
the little-endian chunk words. -/
theorem decodeLoop_spec (g : Nat → Int) (codes : List Nat) : ∀ (k i j : Nat) (buf : List Nat),
    codes.length = i + 5 * k → buf.length = j + 4 * k →
    decodeLoop g codes i j buf = buf.take j ++ chunkWords g (codes.drop i) := by
  intro k
  induction k with
  | zero =>
    intro i j buf hc hb
    rw [decodeLoop, if_neg (by omega)]
    rw [List.drop_eq_nil_of_le (by omega), chunkWords_nil, List.append_nil,
      List.take_of_length_le (by omega)]
  | succ k ih =>
    intro i j buf hc hb
    rw [decodeLoop, if_pos (by omega)]
    rw [ih (i + 5) (j + 4) _ (by omega) (by rw [u32SetLE_length]; omega)]
    rw [u32SetLE_eq_setRun]
    have h4 : (u32LEBytes (chunkValue g codes i)).length = 4 := rfl
    have : j + 4 = j + (u32LEBytes (chunkValue g codes i)).length := by rw [h4]
    rw [this, take_setRun _ _ _ (by rw [h4]; omega)]
    rw [drop_five codes i (by omega), chunkWords]
    rw [List.append_assoc]
    rfl

theorem findIdx_comma (hd rest : List Char) (h : ',' ∉ hd) :
    (hd ++ ',' :: rest).findIdx (fun c => c = ',') = hd.length := by
  induction hd with
  | nil => simp [List.findIdx_cons]
  | cons c t ih =>
    have hc : c ≠ ',' := by intro he; exact h (he ▸ List.mem_cons_self c t)
    rw [List.cons_append, List.findIdx_cons]
    have : (fun c => decide (c = ',')) c = false := by simp [hc]
    simp only [this, cond_false]
    rw [ih (fun hm => h (List.mem_cons_of_mem c hm))]
    simp

theorem comma_mem_append (hd rest : List Char) : ',' ∈ hd ++ ',' :: rest :=
  List.mem_append_right hd (List.mem_cons_self ',' rest)

theorem headerOf_append (hd rest : List Char) (h : ',' ∉ hd) :
    headerOf (hd ++ ',' :: rest) = hd := by
  rw [headerOf, if_pos (comma_mem_append hd rest), findIdx_comma hd rest h, List.take_left]

theorem payloadStart_append (hd rest : List Char) (h : ',' ∉ hd) :
    payloadStart (hd ++ ',' :: rest) = hd.length + 1 := by
  rw [payloadStart, if_pos (comma_mem_append hd rest), findIdx_comma hd rest h]

theorem drop_payloadStart_append (hd rest : List Char) (h : ',' ∉ hd) :
    (hd ++ ',' :: rest).drop (payloadStart (hd ++ ',' :: rest)) = rest := by
  rw [payloadStart_append hd rest h]
  have : hd.length + 1 = hd.length + 1 := rfl
  calc (hd ++ ',' :: rest).drop (hd.length + 1)
      = (',' :: rest).drop 1 := by rw [List.drop_append]
    _ = rest := rfl

theorem decodeLoop_stop (g : Nat → Int) (codes : List Nat) (i j : Nat) (buf : List Nat)
    (h : ¬ i < codes.length) : decodeLoop g codes i j buf = buf := by
  rw [decodeLoop, if_neg h]

theorem decodeLoop_step (g : Nat → Int) (codes : List Nat) (i j : Nat) (buf : List Nat)
    (h : i < codes.length) :
    decodeLoop g codes i j buf
      = decodeLoop g codes (i + 5) (j + 4) (u32SetLE buf j (chunkValue g codes i)) := by
  rw [decodeLoop, if_pos h]

/-- The decode loop on two code lists that agree from index `i` on (and
have equal length) produces the same output. -/
theorem decodeLoop_congr (g : Nat → Int) (codes1 codes2 : List Nat)
    (hlen : codes1.length = codes2.length) :
    ∀ (n i j : Nat) (buf : List Nat), codes1.length - i ≤ n →
    (∀ m, i ≤ m → codes1.getD m 0 = codes2.getD m 0) →
    decodeLoop g codes1 i j buf = decodeLoop g codes2 i j buf := by
  intro n
  induction n with
  | zero =>
    intro i j buf hn _
    rw [decodeLoop_stop g codes1 i j buf (by omega), decodeLoop_stop g codes2 i j buf (by omega)]
  | succ n ih =>
    intro i j buf hn hagree
    by_cases hi : i < codes1.length
    · rw [decodeLoop_step g codes1 i j buf hi, decodeLoop_step g codes2 i j buf (by omega)]
      have hv : chunkValue g codes1 i = chunkValue g codes2 i := by
        rw [chunkValue, chunkValue, hagree i (by omega), hagree (i + 1) (by omega),
          hagree (i + 2) (by omega), hagree (i + 3) (by omega), hagree (i + 4) (by omega)]
      rw [hv]
      exact ih (i + 5) (j + 4) _ (by omega) (fun m hm => hagree m (by omega))
    · rw [decodeLoop_stop g codes1 i j buf hi, decodeLoop_stop g codes2 i j buf (by omega)]

/-- Core of C6 for the three headered decoders: with an exact payload the
result is the chunk decoding truncated to the declared length. -/
theorem headered_decode_spec (g : Nat → Int) (s : List Char) (n : Nat)
    (hlen : (s.drop (payloadStart s)).length = 5 * (toMultipleOfFour n / 4)) :
    (decodeLoop g (s.map Char.toNat) (payloadStart s) 0
        (List.replicate (toMultipleOfFour n) 0)).take n
      = (chunkWords g ((s.drop (payloadStart s)).map Char.toNat)).take n ∧
    ((decodeLoop g (s.map Char.toNat) (payloadStart s) 0
        (List.replicate (toMultipleOfFour n) 0)).take n).length = n := by
  have h4 : toMultipleOfFour n % 4 = 0 := by
    rw [toMultipleOfFour]; split
    · assumption
    · omega
  have hn4 : n ≤ toMultipleOfFour n := by rw [toMultipleOfFour]; split <;> omega
  set k := toMultipleOfFour n / 4 with hk
  have htm : toMultipleOfFour n = 4 * k := by omega
  have hstart : payloadStart s ≤ s.length := by
    rw [payloadStart]; split
    · have : s.findIdx (fun c => c = ',') < s.length :=
        List.findIdx_lt_length_of_exists ⟨',', by assumption, by simp⟩
      omega
    · omega
  have hclen : (s.map Char.toNat).length = payloadStart s + 5 * k := by
    rw [List.length_map]
    have : (s.drop (payloadStart s)).length = s.length - payloadStart s := by
      rw [List.length_drop]
    omega
  have hmain : decodeLoop g (s.map Char.toNat) (payloadStart s) 0
      (List.replicate (toMultipleOfFour n) 0)
      = chunkWords g ((s.map Char.toNat).drop (payloadStart s)) := by
    rw [decodeLoop_spec g (s.map Char.toNat) k (payloadStart s) 0 _ hclen
      (by rw [List.length_replicate]; omega)]
    rfl
  have hdropmap : (s.map Char.toNat).drop (payloadStart s)
      = (s.drop (payloadStart s)).map Char.toNat := by
    rw [List.map_drop]
  constructor
  · rw [hmain, hdropmap]
  · rw [hmain, hdropmap, List.length_take,
      chunkWords_length g k _ (by rw [List.length_map]; omega)]
    omega

theorem toNat_ofNat_valid (n : Nat) (h : n < 0xd800) : (Char.ofNat n).toNat = n := by
  unfold Char.ofNat
  rw [dif_pos (Or.inl h)]
  rfl

theorem getD_append_ge (a1 a2 t : List Nat) (hl : a1.length = a2.length) (m : Nat)
    (hm : a1.length ≤ m) : (a1 ++ t).getD m 0 = (a2 ++ t).getD m 0 := by
  by_cases hmt : m < a1.length + t.length
  · rw [List.getD_eq_getElem _ _ (by simp only [List.length_append]; omega),
      List.getD_eq_getElem _ _ (by simp only [List.length_append]; omega),
      List.getElem_append_right (by omega), List.getElem_append_right (by omega)]
    congr 1
    omega
  · rw [List.getD_eq_default _ _ (by simp only [List.length_append]; omega),
      List.getD_eq_default _ _ (by simp only [List.length_append]; omega)]

/-! ## Claim theorems -/

/-- C2 (counterexample): the claim's formula `(c == 0x5C ? 0x7E : c) − 0x29`
is wrong at `c = 0x5C` itself: the decoder's `getValue` maps `0x5C` to
`0x5C − 0x29 = 51` (only `0x7E` is remapped), not to `0x7E − 0x29 = 85`. -/
theorem v1DigitValue_counterexample :
    getValue_1 0x5c = 51 ∧
    ((if (0x5c : Nat) = 0x5c then (0x7e : Nat) else 0x5c : Nat) : Int) - 0x29 = 85 ∧
    getValue_1 0x5c ≠ ((if (0x5c : Nat) = 0x5c then (0x7e : Nat) else 0x5c : Nat) : Int) - 0x29 := by
  refine ⟨by decide, by decide, by decide⟩

/-- C2 (amended): in the v1 decoder the remapping goes the other way
round — `digitValue(c) = (c == 0x7E ? 0x5C : c) − 0x29`: every code in
`0x29–0x7D` other than `0x5C` maps directly to `c − 0x29` (a value in
`0..84`), and code `0x7E` acts as if it were `0x5C`, giving
`0x5C − 0x29 = 51`. -/
theorem v1DigitValue_amended : ∀ code : Nat, 0x29 ≤ code → code ≤ 0x7d → code ≠ 0x5c →
    (getValue_1 code = (code : Int) - 0x29 ∧ 0 ≤ getValue_1 code ∧ getValue_1 code < 85) ∧
    getValue_1 0x7e = (0x5c : Int) - 0x29 := by
  intro code h1 h2 h3
  have hne : code ≠ 0x7e := by omega
  refine ⟨⟨?_, ?_, ?_⟩, by decide⟩
  · rw [getValue_1, if_neg hne]
  · rw [getValue_1, if_neg hne]; omega
  · rw [getValue_1, if_neg hne]; omega

/-- Witness for C2's amended theorem at `code = 0x29`. -/
theorem v1DigitValue_amended_witness :
    (getValue_1 0x29 = (0x29 : Int) - 0x29 ∧ 0 ≤ getValue_1 0x29 ∧ getValue_1 0x29 < 85) ∧
    getValue_1 0x7e = (0x5c : Int) - 0x29 :=
  v1DigitValue_amended 0x29 (by decide) (by decide) (by decide)

/-- C6: every base-85 variant consumes the payload in 5-character chunks,
the `k`-th chunk producing output bytes `4k..4k+3` as the little-endian
encoding of `b4*85⁴ + b3*85³ + b2*85² + b1*85 + b0` (digit values in
consumption order), and the result has exactly the declared (v1–v3) or
caller-supplied (v4) byte length, trailing pad bytes of the last word
discarded. -/
theorem base85ChunkSemantics :
    (∀ (s : List Char) (n : Nat), strToNatAllDigits (headerOf s) = n →
      (s.drop (payloadStart s)).length = 5 * (toMultipleOfFour n / 4) →
      decode_1 s = (chunkWords getValue_1 ((s.drop (payloadStart s)).map Char.toNat)).take n ∧
      (decode_1 s).length = n) ∧
    (∀ (s : List Char) (n : Nat), strToNatAllDigits (headerOf s) = n →
      (s.drop (payloadStart s)).length = 5 * (toMultipleOfFour n / 4) →
      decode_2 s = (chunkWords getValue_2 ((s.drop (payloadStart s)).map Char.toNat)).take n ∧
      (decode_2 s).length = n) ∧
    (∀ (s : List Char) (n : Nat),
      strToNatAllDigits ((headerOf s).map (fun c => Char.ofNat (c.toNat - 49))) = n →
      (s.drop (payloadStart s)).length = 5 * (toMultipleOfFour n / 4) →
      decode_3 s = (chunkWords getValue_2 ((s.drop (payloadStart s)).map Char.toNat)).take n ∧
      (decode_3 s).length = n) ∧
    (∀ (s : List Char) (n : Nat), s.length = 5 * ((n + 3) / 4) →
      decodeBase85WithoutLengthHeader s n
        = (chunkWords getBase85DecodeValue (s.map Char.toNat)).take n ∧
      (decodeBase85WithoutLengthHeader s n).length = n) := by
  refine ⟨?_, ?_, ?_, ?_⟩
  · intro s n hn hlen
    rw [decode_1, hn]
    exact headered_decode_spec getValue_1 s n hlen
  · intro s n hn hlen
    rw [decode_2, hn]
    exact headered_decode_spec getValue_2 s n hlen
  · intro s n hn hlen
    rw [decode_3, hn]
    exact headered_decode_spec getValue_2 s n hlen
  · intro s n hlen
    rw [decodeBase85WithoutLengthHeader]
    have hc : (s.map Char.toNat).length = 0 + 5 * ((n + 3) / 4) := by
      rw [List.length_map]; omega
    have hb : (List.replicate ((n + 3) / 4 * 4) (0 : Nat)).length = 0 + 4 * ((n + 3) / 4) := by
      rw [List.length_replicate]; omega
    rw [decodeLoop_spec getBase85DecodeValue (s.map Char.toNat) ((n + 3) / 4) 0 0 _ hc hb]
    rw [List.take_zero, List.drop_zero, List.nil_append]
    refine ⟨rfl, ?_⟩
    rw [List.length_take, chunkWords_length getBase85DecodeValue ((n + 3) / 4) _
      (by rw [List.length_map]; omega)]
    omega

/-- Witness for C6 on one concrete 4-byte word per variant. -/
theorem base85ChunkSemantics_witness :
    decode_1 "4,*))))".data = [1, 0, 0, 0] ∧
    decode_2 "4,+****".data = [1, 0, 0, 0] ∧
    decode_3 "e,+****".data = [1, 0, 0, 0] ∧
    decodeBase85WithoutLengthHeader "+****".data 4 = [1, 0, 0, 0] := by
  refine ⟨?_, ?_, ?_, ?_⟩
  · exact ((base85ChunkSemantics.1 "4,*))))".data 4 (by decide) (by decide)).1).trans (by decide)
  · exact ((base85ChunkSemantics.2.1 "4,+****".data 4 (by decide) (by decide)).1).trans (by decide)
  · exact ((base85ChunkSemantics.2.2.1 "e,+****".data 4 (by decide) (by decide)).1).trans (by decide)
  · exact ((base85ChunkSemantics.2.2.2 "+****".data 4 (by decide)).1).trans (by decide)

/-- C5: for an input `header ++ ',' ++ payload`, a nonempty all-decimal
header selects v1 when no backslash occurs in the input and v2 when one
does; any other header selects v3, whose byte length is read from the
header with every character code decremented by 49 — stated as: v3 equals
v2 run on the input with the header replaced by its decrement. -/
theorem headerVariantSelection :
    (∀ (hd rest : List Char), hd ≠ [] → (∀ c ∈ hd, c.isDigit = true) → '\\' ∉ rest →
      decodeBase85WithLengthHeader (hd ++ ',' :: rest) = decode_1 (hd ++ ',' :: rest)) ∧
    (∀ (hd rest : List Char), hd ≠ [] → (∀ c ∈ hd, c.isDigit = true) → '\\' ∈ rest →
      decodeBase85WithLengthHeader (hd ++ ',' :: rest) = decode_2 (hd ++ ',' :: rest)) ∧
    (∀ (hd rest : List Char), ',' ∉ hd → ¬(hd ≠ [] ∧ ∀ c ∈ hd, c.isDigit = true) →
      decodeBase85WithLengthHeader (hd ++ ',' :: rest) = decode_3 (hd ++ ',' :: rest)) ∧
    (∀ (hd rest : List Char), (∀ c ∈ hd, 97 ≤ c.toNat ∧ c.toNat ≤ 106) →
      decode_3 (hd ++ ',' :: rest)
        = decode_2 ((hd.map (fun c => Char.ofNat (c.toNat - 49))) ++ ',' :: rest)) := by
  refine ⟨?_, ?_, ?_, ?_⟩
  · intro hd rest hne hdig hbs
    have hcm : ',' ∉ hd := fun hm => by simpa using hdig ',' hm
    rw [decodeBase85WithLengthHeader, headerOf_append hd rest hcm]
    rw [if_pos ⟨hne, List.all_eq_true.mpr hdig⟩]
    have : '\\' ∉ hd ++ ',' :: rest := by
      intro hm
      rcases List.mem_append.mp hm with h | h
      · simpa using hdig '\\' h
      · rcases List.mem_cons.mp h with h | h
        · exact absurd h (by decide)
        · exact hbs h
    rw [if_neg this]
  · intro hd rest hne hdig hbs
    have hcm : ',' ∉ hd := fun hm => by simpa using hdig ',' hm
    rw [decodeBase85WithLengthHeader, headerOf_append hd rest hcm]
    rw [if_pos ⟨hne, List.all_eq_true.mpr hdig⟩]
    rw [if_pos (List.mem_append_right hd (List.mem_cons_of_mem ',' hbs))]
  · intro hd rest hcm hnd
    rw [decodeBase85WithLengthHeader, headerOf_append hd rest hcm]
    rw [if_neg (fun hcond => hnd ⟨hcond.1, List.all_eq_true.mp hcond.2⟩)]
  · intro hd rest hcode
    have hcm : ',' ∉ hd := by
      intro hm
      have := hcode ',' hm
      simp at this
    have hcm' : ',' ∉ hd.map (fun c => Char.ofNat (c.toNat - 49)) := by
      intro hm
      rcases List.mem_map.mp hm with ⟨c, hc, he⟩
      have hb := hcode c hc
      have : (Char.ofNat (c.toNat - 49)).toNat = c.toNat - 49 :=
        toNat_ofNat_valid _ (by omega)
      rw [he] at this
      rw [show (','.toNat) = 44 from rfl] at this
      omega
    rw [decode_3, decode_2]
    rw [headerOf_append hd rest hcm, headerOf_append _ rest hcm',
      payloadStart_append hd rest hcm, payloadStart_append _ rest hcm',
      List.length_map]
    have hagree : ∀ m, hd.length + 1 ≤ m →
        ((hd ++ ',' :: rest).map Char.toNat).getD m 0
          = (((hd.map (fun c => Char.ofNat (c.toNat - 49))) ++ ',' :: rest).map Char.toNat).getD m 0 := by
      intro m hm
      rw [List.map_append, List.map_append]
      exact getD_append_ge _ _ _ (by simp) m (by simp; omega)
    have hlen : ((hd ++ ',' :: rest).map Char.toNat).length
        = (((hd.map (fun c => Char.ofNat (c.toNat - 49))) ++ ',' :: rest).map Char.toNat).length := by
      simp
    rw [decodeLoop_congr getValue_2 _ _ hlen ((hd ++ ',' :: rest).map Char.toNat).length
      (hd.length + 1) 0 _ (by omega) (fun m hm => hagree m hm)]

/-- Witness for C5: concrete selections of v1 and v3, plus the v3/v2
header relation at a concrete input. -/
theorem headerVariantSelection_witness :
    decodeBase85WithLengthHeader "4,*))))".data = decode_1 "4,*))))".data ∧
    decodeBase85WithLengthHeader "e,+****".data = decode_3 "e,+****".data ∧
    decode_3 "e,+****".data = decode_2 "4,+****".data := by
  refine ⟨?_, ?_, ?_⟩
  · exact headerVariantSelection.1 ['4'] "*))))".data (by decide) (by decide) (by decide)
  · exact headerVariantSelection.2.2.1 ['e'] "+****".data (by decide) (by decide)
  · have heq := headerVariantSelection.2.2.2 ['e'] "+****".data (by decide)
    have h1 : "e,+****".data = ['e'] ++ ',' :: "+****".data := rfl
    have h2 : List.map (fun c => Char.ofNat (c.toNat - 49)) ['e'] ++ ',' :: "+****".data
        = "4,+****".data := by decide
    rw [h1, heq, h2]

theorem take_takeWhile_length (p : Char → Bool) : ∀ s : List Char,
    s.take (s.takeWhile p).length = s.takeWhile p := by
  intro s
  induction s with
  | nil => rfl
  | cons c t ih =>
    by_cases hc : p c
    · simp [List.takeWhile_cons, hc, ih]
    · simp [List.takeWhile_cons, hc]

theorem takeWhile_digits_append (d e : List Char) (hd : ∀ c ∈ d, Char.isDigit c = true) :
    (d ++ '.' :: e).takeWhile Char.isDigit = d := by
  induction d with
  | nil => simp [List.takeWhile_cons]
  | cons c t ih =>
    rw [List.cons_append, List.takeWhile_cons]
    simp [hd c (List.mem_cons_self c t), ih (fun x hx => hd x (List.mem_cons_of_mem c hx))]

/-- C3 (counterexample): the asset regexes carry the `i` flag, so a
32-character hex name written in uppercase does count as an sb3 asset,
contradicting the claim's "lowercase … in particular uppercase is not". -/
theorem assetName_counterexample :
    isSb3AssetName "A1B2C3D4E5F6A1B2C3D4E5F6A1B2C3D4.png".data = true := by decide

/-- C3 (amended): classification is case-insensitive — a name is
sb3-shaped exactly when it is 32 hex characters of either case, a dot and
3 alphanumeric characters (either case); it is sb2-shaped exactly when it
is a nonempty run of decimal digits, a dot and 3 alphanumeric characters;
and the counting loop tests the sb3 shape first, so a name of both shapes
is counted as sb3 only. -/
theorem assetNameClassification :
    (∀ s : List Char, isSb3AssetName s = true ↔
      ∃ a e, s = a ++ '.' :: e ∧ a.length = 32 ∧ (∀ c ∈ a, isHexCI c = true) ∧
        e.length = 3 ∧ (∀ c ∈ e, isAlnumCI c = true)) ∧
    (∀ s : List Char, isSb2AssetName s = true ↔
      ∃ d e, s = d ++ '.' :: e ∧ d ≠ [] ∧ (∀ c ∈ d, c.isDigit = true) ∧
        e.length = 3 ∧ (∀ c ∈ e, isAlnumCI c = true)) ∧
    (∀ (acc : Nat × Nat × List (List Char)) (p : List Char),
      p ≠ pjName → isSb3AssetName p = true →
      assetScanStep acc p = (acc.1 + 1, acc.2.1, acc.2.2 ++ [p])) := by
  refine ⟨?_, ?_, ?_⟩
  · intro s
    constructor
    · intro h
      simp only [isSb3AssetName, Bool.and_eq_true, beq_iff_eq, List.all_eq_true] at h
      obtain ⟨⟨⟨h36, hhex⟩, hdot⟩, halnum⟩ := h
      refine ⟨s.take 32, s.drop 33, ?_, ?_, hhex, ?_, halnum⟩
      · have h32 : 32 < s.length := by omega
        have hdot' : s[32] = '.' := by
          rw [← List.getD_eq_getElem s ' ' h32]; exact hdot
        calc s = s.take 32 ++ s.drop 32 := (List.take_append_drop 32 s).symm
          _ = s.take 32 ++ s[32] :: s.drop 33 := by rw [List.drop_eq_getElem_cons h32]
          _ = s.take 32 ++ '.' :: s.drop 33 := by rw [hdot']
      · rw [List.length_take]; omega
      · rw [List.length_drop]; omega
    · rintro ⟨a, e, rfl, ha, hhex, he, halnum⟩
      simp only [isSb3AssetName, Bool.and_eq_true, beq_iff_eq, List.all_eq_true]
      have hlen : (a ++ '.' :: e).length = 36 := by simp [ha, he]
      have htake : (a ++ '.' :: e).take 32 = a := by
        rw [← ha, List.take_left]
      have hdot : (a ++ '.' :: e).getD 32 ' ' = '.' := by
        rw [List.getD_eq_getElem _ ' ' (by omega)]
        rw [List.getElem_append_right (by omega)]
        simp [ha]
      have hdrop : (a ++ '.' :: e).drop 33 = e := by
        have : 33 = a.length + 1 := by omega
        rw [this, List.drop_append]
        rfl
      exact ⟨⟨⟨by omega, by rw [htake]; exact hhex⟩, hdot⟩, by rw [hdrop]; exact halnum⟩
  · intro s
    constructor
    · intro h
      simp only [isSb2AssetName, Bool.and_eq_true, beq_iff_eq, List.all_eq_true,
        Bool.not_eq_true'] at h
      obtain ⟨⟨⟨h1, h2⟩, h3⟩, h4⟩ := h
      have h1' : s.takeWhile Char.isDigit ≠ [] := by
        intro he; rw [he] at h1; simp at h1
      have hDle : (s.takeWhile Char.isDigit).length ≤ s.length :=
        (List.takeWhile_sublist _).length_le
      have hDlt : (s.takeWhile Char.isDigit).length < s.length := by
        rcases Nat.lt_or_ge (s.takeWhile Char.isDigit).length s.length with hlt | hge
        · exact hlt
        · rw [List.getD_eq_default s ' ' hge] at h2
          exact absurd h2 (by decide)
      refine ⟨s.takeWhile Char.isDigit, s.drop ((s.takeWhile Char.isDigit).length + 1),
        ?_, h1', fun c hc => List.mem_takeWhile_imp hc, h3, h4⟩
      calc s = s.take (s.takeWhile Char.isDigit).length
                ++ s.drop (s.takeWhile Char.isDigit).length := (List.take_append_drop _ s).symm
        _ = s.takeWhile Char.isDigit ++ s.drop (s.takeWhile Char.isDigit).length := by
              rw [take_takeWhile_length]
        _ = s.takeWhile Char.isDigit
              ++ '.' :: s.drop ((s.takeWhile Char.isDigit).length + 1) := by
              rw [List.drop_eq_getElem_cons hDlt, ← List.getD_eq_getElem s ' ' hDlt, h2]
    · rintro ⟨d, e, rfl, hne, hdig, he3, haln⟩
      have hD : (d ++ '.' :: e).takeWhile Char.isDigit = d := takeWhile_digits_append d e hdig
      simp only [isSb2AssetName, Bool.and_eq_true, beq_iff_eq, List.all_eq_true,
        Bool.not_eq_true', hD]
      have hdl : d.length < (d ++ '.' :: e).length := by simp
      have hdot : (d ++ '.' :: e).getD d.length ' ' = '.' := by
        rw [List.getD_eq_getElem _ ' ' hdl, List.getElem_append_right (by omega)]
        simp
      have hdrop : (d ++ '.' :: e).drop (d.length + 1) = e := by
        rw [show d.length + 1 = d.length + 1 from rfl, List.drop_append]
        rfl
      refine ⟨⟨⟨?_, hdot⟩, by rw [hdrop]; exact he3⟩, by rw [hdrop]; exact haln⟩
      cases d with
      | nil => exact absurd rfl hne
      | cons c t => rfl
  · intro acc p hpj h3
    rw [assetScanStep, if_neg hpj, if_pos h3]

/-- Witness for C3's loop-order conjunct at a concrete sb3-shaped name. -/
theorem assetNameClassification_witness :
    assetScanStep (0, 0, []) "a1b2c3d4e5f6a1b2c3d4e5f6a1b2c3d4.png".data
      = (1, 0, ["a1b2c3d4e5f6a1b2c3d4e5f6a1b2c3d4.png".data]) :=
  (assetNameClassification.2.2 (0, 0, []) "a1b2c3d4e5f6a1b2c3d4e5f6a1b2c3d4.png".data
    (by decide) (by decide)).trans (by decide)

theorem assetScan_counts : ∀ (paths : List (List Char)) (acc : Nat × Nat × List (List Char)),
    (paths.foldl assetScanStep acc).1 = acc.1 + paths.countP sb3CountedP ∧
    (paths.foldl assetScanStep acc).2.1 = acc.2.1 + paths.countP sb2CountedP := by
  intro paths
  induction paths with
  | nil => intro acc; simp
  | cons p t ih =>
    intro acc
    rw [List.foldl_cons, List.countP_cons, List.countP_cons]
    obtain ⟨ih1, ih2⟩ := ih (assetScanStep acc p)
    rw [ih1, ih2]
    by_cases hpj : p = pjName
    · simp [assetScanStep, sb3CountedP, sb2CountedP, hpj]
    · by_cases h3 : isSb3AssetName p
      · constructor
        · simp [assetScanStep, sb3CountedP, sb2CountedP, hpj, h3]
          omega
        · simp [assetScanStep, sb3CountedP, sb2CountedP, hpj, h3]
      · by_cases h2 : isSb2AssetName p
        · constructor
          · simp [assetScanStep, sb3CountedP, sb2CountedP, hpj, h3, h2]
          · simp [assetScanStep, sb3CountedP, sb2CountedP, hpj, h3, h2]
            omega
        · simp [assetScanStep, sb3CountedP, sb2CountedP, hpj, h3, h2]

/-- C4: when the extractor runs (a zip whose `project.json` was found),
the output tag is `sb2` exactly when at least one sb2-counted name and
zero sb3-counted names were seen; in every other case it is `sb3`. -/
theorem extractorTieBreak : ∀ (ext : Ext) (blob : List Nat) (z : Zip) (f : ZipEntry),
    ext.parseZip blob = some z → findFileInZip z pjName = some f →
    ((∃ d, unpackage ext blob = .ok ⟨.sb2, d⟩) ↔
      1 ≤ (z.map (fun e => e.name)).countP sb2CountedP ∧
        (z.map (fun e => e.name)).countP sb3CountedP = 0) ∧
    ((∃ d, unpackage ext blob = .ok ⟨.sb2, d⟩) ∨
      (∃ d, unpackage ext blob = .ok ⟨.sb3, d⟩)) := by
  intro ext blob z f hp hf
  have hrw : unpackage ext blob
      = .ok ⟨if 0 < (assetScan (z.map (fun e => e.name))).2.1 ∧
              (assetScan (z.map (fun e => e.name))).1 = 0 then ProjType.sb2 else ProjType.sb3,
            zipToArrayBuffer ext (z.filter (fun e =>
              e.name == pjName || isSb3AssetName e.name || isSb2AssetName e.name))⟩ := by
    simp only [unpackage, hp, hf]
  obtain ⟨hc3, hc2⟩ := assetScan_counts (z.map (fun e => e.name)) (0, 0, [])
  simp only [Nat.zero_add] at hc3 hc2
  rw [assetScan] at hrw
  by_cases hcond : 0 < (List.foldl assetScanStep (0, 0, []) (z.map (fun e => e.name))).2.1 ∧
      (List.foldl assetScanStep (0, 0, []) (z.map (fun e => e.name))).1 = 0
  · rw [if_pos hcond] at hrw
    exact ⟨iff_of_true ⟨_, hrw⟩ (by omega), Or.inl ⟨_, hrw⟩⟩
  · rw [if_neg hcond] at hrw
    refine ⟨iff_of_false ?_ (by omega), Or.inr ⟨_, hrw⟩⟩
    rintro ⟨d, hd⟩
    rw [hrw] at hd
    simp at hd

/-- Witness for C4: an archive holding `project.json` and one sb2-shaped
asset yields the `sb2` tag. -/
theorem extractorTieBreak_witness :
    ∃ d, unpackage (extFix [⟨pjName, [], 0⟩, ⟨"42.svg".data, [], 0⟩]) []
      = .ok ⟨.sb2, d⟩ :=
  (extractorTieBreak (extFix [⟨pjName, [], 0⟩, ⟨"42.svg".data, [], 0⟩]) []
    [⟨pjName, [], 0⟩, ⟨"42.svg".data, [], 0⟩] ⟨pjName, [], 0⟩ rfl
    (by decide)).1.mpr (by decide)

/-- C1 (counterexample): a byte sequence that is not a valid zip
(`parseZip` rejects it, and it reads as the text `"x"`) makes the
top-level `unpackage` fail with the "could not find project" error instead
of returning `{type: sb, data}`. -/
theorem unpackageNonZip_counterexample :
    extNoZip.parseZip [120] = none ∧
    unpackage extNoZip [120] = .error .noProjectFound ∧
    unpackage extNoZip [120] ≠ .ok ⟨.sb, [120]⟩ :=
  ⟨rfl, by decide, by decide⟩

/-- C1 (amended): it is the recursive binary-blob classifier
(`unpackageBinaryBlob`), not the top-level entry point, that returns
`{type: sb, data: <same bytes>}` on every input that is not a valid zip;
the top-level `unpackage` instead treats non-zip input as HTML text and
errors when no extraction pattern matches. -/
theorem binaryBlobNonZip_sb : ∀ (ext : Ext) (data : List Nat),
    ext.parseZip data = none → unpackageBinaryBlob ext data = .ok ⟨.sb, data⟩ := by
  intro ext data h
  simp only [unpackageBinaryBlob, h]

/-- Witness for C1's amended theorem. -/
theorem binaryBlobNonZip_sb_witness :
    unpackageBinaryBlob extNoZip [1, 2, 3] = .ok ⟨.sb, [1, 2, 3]⟩ :=
  binaryBlobNonZip_sb extNoZip [1, 2, 3] rfl

/-- C8: in a zip without `project.json`, `project.zip` is searched before
`project`; the first hit is classified as a binary blob, and if neither
exists the dispatcher fails with the "could not find a project" error
rather than falling through to the HTML parser. -/
theorem zipFallbackPriority : ∀ (ext : Ext) (blob : List Nat) (z : Zip),
    ext.parseZip blob = some z → findFileInZip z pjName = none →
    (∀ f, findFileInZip z "project.zip".data = some f →
      unpackage ext blob = unpackageBinaryBlob ext f.data) ∧
    (findFileInZip z "project.zip".data = none →
      ∀ f, findFileInZip z "project".data = some f →
        unpackage ext blob = unpackageBinaryBlob ext f.data) ∧
    (findFileInZip z "project.zip".data = none → findFileInZip z "project".data = none →
      unpackage ext blob = .error .zipMissingProject) := by
  intro ext blob z hp hf
  refine ⟨?_, ?_, ?_⟩
  · intro f hfz
    simp only [unpackage, hp, hf, hfz, Option.some_orElse]
  · intro hfz f hfp
    simp only [unpackage, hp, hf, hfz, hfp, Option.none_orElse]
  · intro hfz hfp
    simp only [unpackage, hp, hf, hfz, hfp, Option.none_orElse]

/-- Witness for C8: a zip with neither `project.json` nor `project.zip`
nor `project` gives the labeled error. -/
theorem zipFallbackPriority_witness :
    unpackage (extFix [⟨"notes.txt".data, [], 0⟩]) [] = .error .zipMissingProject :=
  (zipFallbackPriority (extFix [⟨"notes.txt".data, [], 0⟩]) [] [⟨"notes.txt".data, [], 0⟩]
    rfl (by decide)).2.2 (by decide) (by decide)

/-- C9: the rebuilder is deterministic over logical content — entry lists
equal up to timestamps serialize to identical bytes, because every
timestamp is overwritten with the fixed constant before serializing. -/
theorem rebuildDeterminism : ∀ (ext : Ext) (z1 z2 : Zip),
    z1.map (fun e => e.name) = z2.map (fun e => e.name) →
    z1.map (fun e => e.data) = z2.map (fun e => e.data) →
    zipToArrayBuffer ext z1 = zipToArrayBuffer ext z2 := by
  intro ext z1 z2 hn hd
  rw [zipToArrayBuffer, zipToArrayBuffer]
  congr 1
  induction z1 generalizing z2 with
  | nil =>
    cases z2 with
    | nil => rfl
    | cons e2 t2 => simp at hn
  | cons e1 t1 ih =>
    cases z2 with
    | nil => simp at hn
    | cons e2 t2 =>
      simp only [List.map_cons, List.cons.injEq] at hn hd
      rw [List.map_cons, List.map_cons, ih t2 hn.2 hd.2]
      obtain ⟨n1, b1, dt1⟩ := e1
      obtain ⟨n2, b2, dt2⟩ := e2
      simp only at hn hd
      rw [hn.1, hd.1]

/-- Witness for C9: identical names/bytes but different timestamps, with
a serializer that exposes exactly the timestamps. -/
theorem rebuildDeterminism_witness :
    zipToArrayBuffer extDates [⟨"a".data, [1], 5⟩]
      = zipToArrayBuffer extDates [⟨"a".data, [1], 99⟩] :=
  rebuildDeterminism extDates [⟨"a".data, [1], 5⟩] [⟨"a".data, [1], 99⟩]
    (by decide) (by decide)

/-- C10: a valid zip without any `project.json` entry makes the
binary-blob classifier fail through the unguarded null access (the
`TypeError` of reading `projectJSON.async`), which is none of the five
labeled error kinds of the error-handling design. -/
theorem binaryBlobMissingProjectJSON : ∀ (ext : Ext) (data : List Nat) (z : Zip),
    ext.parseZip data = some z → findFileInZip z pjName = none →
    unpackageBinaryBlob ext data = .error .nullProjectJSONAccess ∧
    UErr.nullProjectJSONAccess ∉ [UErr.ambiguousProjectType, UErr.dataURINotBase64,
      UErr.zipMissingProject, UErr.noProjectFound, UErr.blobReadFailure] := by
  intro ext data z h1 h2
  constructor
  · simp only [unpackageBinaryBlob, h1, h2]
  · decide

/-- Witness for C10. -/
theorem binaryBlobMissingProjectJSON_witness :
    unpackageBinaryBlob (extFix [⟨"a.png".data, [], 0⟩]) [] = .error .nullProjectJSONAccess ∧
    UErr.nullProjectJSONAccess ∉ [UErr.ambiguousProjectType, UErr.dataURINotBase64,
      UErr.zipMissingProject, UErr.noProjectFound, UErr.blobReadFailure] :=
  binaryBlobMissingProjectJSON (extFix [⟨"a.png".data, [], 0⟩]) [] [⟨"a.png".data, [], 0⟩]
    rfl (by decide)

theorem splitB64_ne_nil : ∀ (acc s : List Char), splitB64 acc s ≠ [] := by
  intro acc s
  induction acc, s using splitB64.induct with
  | case1 acc rest ih => rw [splitB64.eq_1]; simp
  | case2 acc c rest hne ih => rw [splitB64.eq_2 _ _ _ hne]; exact ih
  | case3 acc => rw [splitB64.eq_3]; simp

theorem splitB64_length_acc : ∀ (acc s acc2 : List Char),
    (splitB64 acc s).length = (splitB64 acc2 s).length := by
  intro acc s
  induction acc, s using splitB64.induct with
  | case1 acc rest ih => intro acc2; rw [splitB64.eq_1, splitB64.eq_1]; rfl
  | case2 acc c rest hne ih =>
    intro acc2
    rw [splitB64.eq_2 _ _ _ hne, splitB64.eq_2 _ _ _ hne]
    exact ih (acc2 ++ [c])
  | case3 acc => intro acc2; rw [splitB64.eq_3, splitB64.eq_3]; rfl

theorem splitB64_two_iff : ∀ (acc s : List Char),
    2 ≤ (splitB64 acc s).length ↔ ∃ l r, s = l ++ sepB64chars ++ r := by
  intro acc s
  induction acc, s using splitB64.induct with
  | case1 acc rest ih =>
    rw [splitB64.eq_1]
    refine iff_of_true ?_ ⟨[], rest, rfl⟩
    have hpos : 0 < (splitB64 [] rest).length :=
      List.length_pos.mpr (splitB64_ne_nil [] rest)
    simp only [List.length_cons]
    omega
  | case2 acc c rest hne ih =>
    rw [splitB64.eq_2 _ _ _ hne]
    constructor
    · intro h
      obtain ⟨l, r, hr⟩ := ih.mp h
      exact ⟨c :: l, r, by rw [hr]; rfl⟩
    · rintro ⟨l, r, hr⟩
      cases l with
      | nil =>
        rw [List.nil_append] at hr
        rw [show sepB64chars ++ r = ';' :: 'b' :: 'a' :: 's' :: 'e' :: '6' :: '4' :: ',' :: r
          from rfl] at hr
        injection hr with h1 h2
        exact (hne r h1 h2).elim
      | cons c' l' =>
        rw [List.cons_append] at hr
        injection hr with h1 h2
        exact ih.mpr ⟨l', r, h2⟩
  | case3 acc =>
    rw [splitB64.eq_3]
    refine iff_of_false (by simp) ?_
    rintro ⟨l, r, hr⟩
    have := congrArg List.length hr
    simp [sepB64chars] at this
    omega

theorem splitB64_no_semi : ∀ (s : List Char), ';' ∉ s → ∀ (acc : List Char),
    splitB64 acc s = [acc ++ s] := by
  intro s
  induction s with
  | nil => intro _ acc; rw [splitB64.eq_3, List.append_nil]
  | cons c t ih =>
    intro h acc
    have hc : c ≠ ';' := fun he => h (he ▸ List.mem_cons_self c t)
    rw [splitB64.eq_2 _ _ _ (fun r hce _ => hc hce),
      ih (fun hm => h (List.mem_cons_of_mem c hm)) (acc ++ [c])]
    simp

theorem splitB64_first : ∀ (meta : List Char), ';' ∉ meta → ∀ (rest acc : List Char),
    splitB64 acc (meta ++ sepB64chars ++ rest) = (acc ++ meta) :: splitB64 [] rest := by
  intro meta
  induction meta with
  | nil =>
    intro _ rest acc
    rw [List.nil_append,
      show sepB64chars ++ rest = ';' :: 'b' :: 'a' :: 's' :: 'e' :: '6' :: '4' :: ',' :: rest
        from rfl,
      splitB64.eq_1, List.append_nil]
  | cons c m ih =>
    intro h rest acc
    have hc : c ≠ ';' := fun he => h (he ▸ List.mem_cons_self c m)
    rw [List.cons_append, List.cons_append,
      splitB64.eq_2 _ _ _ (fun r hce _ => hc hce),
      ih (fun hm => h (List.mem_cons_of_mem c hm)) rest (acc ++ [c])]
    simp

/-- C7 (counterexample): when two `';base64,'` separators occur, the code
decodes the middle split segment, not "the text after the first
separator": on `";base64,AA;base64,AA"` it returns `.ok [0]`
(= atob "AA"), while the text after the first separator,
`"AA;base64,AA"`, has no standard base64 decoding at all. -/
theorem dataURIDecoding_counterexample :
    decodeDataURI ";base64,AA;base64,AA".data = .ok [0] ∧
    decodeBase64 "AA;base64,AA".data = none :=
  ⟨by decide, by decide⟩

/-- C7 (amended): the decoder fails with the labeled "Data URI is not
base64" error exactly when the string contains no `';base64,'` substring;
on input `meta ++ ';base64,' ++ payload` (`meta`, `payload` free of
`';'`, so the separator occurs once) it returns `atob(payload)`, the
`atob` failure surfacing as a distinct (base64) error.  In general the
decoded segment is `split(';base64,')[1]` — the text between the first
and second separator — not everything after the first separator. -/
theorem dataURIDecoding :
    (∀ uri, decodeDataURI uri = .error .dataURINotBase64 ↔
      ¬ ∃ l r, uri = l ++ sepB64chars ++ r) ∧
    (∀ meta payload, ';' ∉ meta → ';' ∉ payload →
      decodeDataURI (meta ++ sepB64chars ++ payload)
        = match decodeBase64 payload with
          | some r => .ok r
          | none => .error .invalidBase64) := by
  constructor
  · intro uri
    simp only [decodeDataURI]
    by_cases h : (splitB64 [] uri).length < 2
    · rw [if_pos h]
      refine iff_of_true rfl ?_
      rw [← splitB64_two_iff [] uri]
      omega
    · rw [if_neg h]
      refine iff_of_false ?_ ?_
      · cases hdb : decodeBase64 ((splitB64 [] uri).getD 1 []) with
        | some r => simp [hdb]
        | none => simp [hdb]
      · rw [← splitB64_two_iff [] uri]
        omega
  · intro meta payload h1 h2
    simp only [decodeDataURI]
    rw [splitB64_first meta h1 payload [], splitB64_no_semi payload h2 [],
      List.nil_append, List.nil_append]
    rw [if_neg (by simp)]
    rfl

/-- Witness for C7's amended theorem at a concrete well-formed URI. -/
theorem dataURIDecoding_witness :
    decodeDataURI ("data:x".data ++ sepB64chars ++ "QQ==".data) = .ok [65] :=
  (dataURIDecoding.2 "data:x".data "QQ==".data (by decide) (by decide)).trans (by decide)

end Unpackager
